import Mathlib

/-!
# Verification of the load-alignment rewriter (`AlignLoads`)

A shallow embedding of Halide's `AlignLoads` IR rewriting pass
(`AlignLoads.cpp`, the Hexagon load-alignment rewriter) and proofs about it.  The pass rewrites vector loads into aligned loads combined
by `concat_vectors` / `shuffle_vector` intrinsics.

Embedding conventions:
* IR expression/statement nodes carry their Halide types, as in the source.
* Variable and buffer names are numeric identifiers.
* `Expr` argument lists are a mutually inductive `ExprList` so that all
  functions are structurally recursive and kernel-reducible.
* The visitor's re-entrant recursion on freshly synthesized nodes is modelled
  with an explicit fuel parameter; running out of fuel is the distinguished
  error `Err.outOfFuel`, and every theorem about the mutator is conditional on
  a successful (`.ok`) run, so the fuel never weakens a statement.
* The C++ null-pointer dereferences that `visit(const Load*)` can perform on
  `ramp`/`stride` are modelled as the error `Err.nullDeref`; the
  `internal_error` in `visit(const For*)` as `Err.internalError`.
* External collaborators whose sources are not part of the repository snapshot
  (the simplifier, the modulus-remainder summarizer, `Target` queries) are
  modelled from the spec; see the individual doc comments.
-/

namespace AlignLoadsProofs

/-- Scalar kind of a Halide `Type` (Type.h is external; only the queries the
pass performs are modelled). -/
inductive TypeCode where
  | int
  | uint
  | float
deriving DecidableEq

/-- A Halide `Type`: scalar code, bit width, lane count (1 = scalar). -/
structure HType where
  code : TypeCode
  bits : Nat
  lanes : Nat
deriving DecidableEq

/-- `Type::bytes()`: `(bits + 7) / 8`. -/
def HType.bytes (t : HType) : Nat := (t.bits + 7) / 8

/-- `Type::with_lanes(l)`. -/
def HType.with_lanes (t : HType) (l : Nat) : HType := ⟨t.code, t.bits, l⟩

/-- `Type::is_vector()`: lane count different from 1. -/
def HType.is_vector (t : HType) : Bool := t.lanes != 1

/-- `Type::is_int()`: a signed integer type. -/
def HType.is_int (t : HType) : Bool := t.code == TypeCode.int

/-- The type `Int(32)` that `visit_let` compares against. -/
def int32 : HType := ⟨TypeCode.int, 32, 1⟩

/-- The two pure intrinsics the pass synthesizes. -/
inductive CallOp where
  | concat_vectors
  | shuffle_vector
deriving DecidableEq

/-- Device-API tag on a `For` loop.  `Hexagon` is the wide-vector DSP. -/
inductive DeviceAPI where
  | Host
  | Hexagon
  | CUDA
deriving DecidableEq

/-- Modelled from the spec: the target description.  The pass only queries
`has_feature(HVX_128)`, `has_feature(HVX_64)` and `natural_vector_size(Int(8))`
(the latter seeds `required_alignment`); `Target.cpp` is not part of the
sources, so those three queries are the whole model. -/
structure Target where
  hvx_128 : Bool
  hvx_64 : Bool
  natural_vector_size_i8 : Nat
deriving DecidableEq

/-- Modelled from the spec: a modulus-remainder summary `(m, r)` meaning the
summarized expression is congruent to `r` modulo `m` under the alignment
context; `(1, 0)` denotes "no information" and modulus `0` an exactly known
value (so every modulus divides it). -/
structure ModulusRemainder where
  modulus : Int
  remainder : Int
deriving DecidableEq

/-- The alignment-info scope: a stack of bindings, most recent first. -/
abbrev Scope := List (Nat × ModulusRemainder)

/-- Innermost binding of a name in the scope. -/
def scopeGet (sc : Scope) (n : Nat) : Option ModulusRemainder :=
  (sc.find? (fun p => p.1 == n)).map (fun p => p.2)

/-- Failure modes of the embedded pass.  `outOfFuel` is an artifact of the
fuel-indexed embedding; `nullDeref` models the C++ null-pointer dereferences
in `visit(const Load*)`; `internalError` models `internal_error`. -/
inductive Err where
  | outOfFuel
  | nullDeref
  | internalError
deriving DecidableEq

mutual
/-- The IR expressions inspected or produced by the pass.  `Load` fields are
type, buffer name, index, whether `image` is defined (external buffer), and
`param` as an optional declared host alignment (in bytes).  `Call` carries its
result type as in the IR. -/
inductive Expr where
  | IntImm (value : Int)
  | Var (t : HType) (name : Nat)
  | Add (a b : Expr)
  | Sub (a b : Expr)
  | Mul (a b : Expr)
  | Ramp (base stride : Expr) (lanes : Nat)
  | Broadcast (value : Expr) (lanes : Nat)
  | Load (t : HType) (name : Nat) (index : Expr) (image : Bool) (param : Option Int)
  | Call (t : HType) (op : CallOp) (args : ExprList)
  | Let (name : Nat) (value : Expr) (body : Expr)
deriving DecidableEq

/-- Argument lists of `Call` nodes. -/
inductive ExprList where
  | nil
  | cons (e : Expr) (es : ExprList)
deriving DecidableEq
end

/-- Statements the pass treats specially (`LetStmt`, `For`) plus enough
generic statement structure (`Store`, `Evaluate`, `Block`) to host loads. -/
inductive Stmt where
  | LetStmt (name : Nat) (value : Expr) (body : Stmt)
  | For (name : Nat) (min extent : Expr) (device_api : DeviceAPI) (body : Stmt)
  | Store (name : Nat) (value index : Expr)
  | Evaluate (e : Expr)
  | Block (first rest : Stmt)
deriving DecidableEq

/-- Static type of an expression, following the IR's typing rules
(`IntImm` is `Int(32)`; a `Ramp`/`Broadcast` widens its base's type; `Load`
and `Call` carry their types). -/
def typeOf : Expr → HType
  | .IntImm _ => int32
  | .Var t _ => t
  | .Add a _ => typeOf a
  | .Sub a _ => typeOf a
  | .Mul a _ => typeOf a
  | .Ramp b _ n => (typeOf b).with_lanes n
  | .Broadcast v n => (typeOf v).with_lanes n
  | .Load t _ _ _ _ => t
  | .Call t _ _ => t
  | .Let _ _ b => typeOf b

/-- Convert a Lean list of expressions to an `ExprList`. -/
def ofList : List Expr → ExprList
  | [] => .nil
  | e :: es => .cons e (ofList es)

/-- Convert an `ExprList` back to a Lean list. -/
def toList : ExprList → List Expr
  | .nil => []
  | .cons e es => e :: toList es

/-- The literal index list `[f 0, f 1, …, f (n-1)]` as IR expressions. -/
def immsOfFn (f : Nat → Int) : Nat → ExprList
  | 0 => .nil
  | n + 1 => .cons (.IntImm (f 0)) (immsOfFn (fun i => f (i + 1)) n)

/-- `ramp = index.as<Ramp>()`. -/
def asRamp : Expr → Option (Expr × Expr × Nat)
  | .Ramp b s n => some (b, s, n)
  | _ => none

/-- `stride.as<IntImm>()`. -/
def asIntImm : Expr → Option Int
  | .IntImm v => some v
  | _ => none

/-- Modelled from the spec: the external simplifier (`Simplify.cpp` is not
part of the sources).  The spec only requires a semantics-preserving
canonicalizer of the synthesized integer bases, so it is modelled as a
top-level constant folder. -/
def simplify : Expr → Expr
  | .Add (.IntImm a) (.IntImm b) => .IntImm (a + b)
  | .Sub (.IntImm a) (.IntImm b) => .IntImm (a - b)
  | .Mul (.IntImm a) (.IntImm b) => .IntImm (a * b)
  | e => e

/-- Modelled from the spec: sound congruence rule for sums of summaries.
The combined modulus is the gcd of the two moduli (with modulus 0 standing
for an exactly known value, `gcd 0 0 = 0` keeps exactness). -/
def mrAdd (a b : ModulusRemainder) : ModulusRemainder :=
  let m : Int := Int.gcd a.modulus b.modulus
  ⟨m, (a.remainder + b.remainder) % m⟩

/-- Modelled from the spec: sound congruence rule for differences. -/
def mrSub (a b : ModulusRemainder) : ModulusRemainder :=
  let m : Int := Int.gcd a.modulus b.modulus
  ⟨m, (a.remainder - b.remainder) % m⟩

/-- Modelled from the spec: `modulus_remainder(e, context)`, the external
summarizer (`ModulusRemainder.cpp` is not part of the sources).  Literals are
exactly known, context variables yield their recorded summary, sums and
differences combine soundly, and everything else is "no information". -/
def modulus_remainder (sc : Scope) : Expr → ModulusRemainder
  | .IntImm v => ⟨0, v⟩
  | .Var _ n => (scopeGet sc n).getD ⟨1, 0⟩
  | .Add a b => mrAdd (modulus_remainder sc a) (modulus_remainder sc b)
  | .Sub a b => mrSub (modulus_remainder sc a) (modulus_remainder sc b)
  | _ => ⟨1, 0⟩

/-- Modelled from the spec: `reduce_expr_modulo(e, n, &out, context)` returns
`((e mod n) + n) mod n` exactly when the summarizer's modulus is a multiple
of `n`, and "unknown" (`none`) otherwise. -/
def reduce_expr_modulo (sc : Scope) (e : Expr) (n : Int) : Option Int :=
  let mr := modulus_remainder sc e
  if mr.modulus % n = 0 then some ((mr.remainder % n + n) % n) else none

/-- `natural_vector_lanes(t) = required_alignment / t.bytes()`. -/
def natural_vector_lanes (ra : Nat) (t : HType) : Nat := ra / t.bytes

/-- `AlignLoads::get_alignment_check`: unknown when the buffer's host
alignment is not a multiple of the required alignment, else the ramp base
reduced modulo the natural lane count. -/
def get_alignment_check (ra : Nat) (sc : Scope) (t : HType) (host_alignment : Int)
    (base : Expr) : Option Int :=
  if Int.tmod host_alignment (ra : Int) ≠ 0 then none
  else reduce_expr_modulo sc base ((natural_vector_lanes ra t : Nat) : Int)

/-- `AlignLoads::concat_and_shuffle(vec_a, vec_b, indices)`:
`shuffle_vector(concat_vectors(vec_a, vec_b), indices…)` with the result
typed like `vec_a` and the concatenation at doubled lanes. -/
def concat_and_shuffle (vec_a vec_b : Expr) (indices : ExprList) : Expr :=
  let dbl_t := (typeOf vec_a).with_lanes ((typeOf vec_a).lanes * 2)
  let dbl_vec := Expr.Call dbl_t .concat_vectors (.cons vec_a (.cons vec_b .nil))
  Expr.Call (typeOf vec_a) .shuffle_vector (.cons dbl_vec indices)

/-- `AlignLoads::concat_and_shuffle(vec_a, vec_b, start, size)`: the
contiguous index window `[start, start+size)`. -/
def concat_and_shuffle_range (vec_a vec_b : Expr) (start : Int) (size : Nat) : Expr :=
  concat_and_shuffle vec_a vec_b (immsOfFn (fun i => start + (i : Int)) size)

/-- The `base_alignment` of the dense stride-1 case: `param.host_alignment()`
when the param is defined, else `required_alignment`. -/
def base_alignment_of (param : Option Int) (ra : Nat) : Int :=
  match param with
  | some ha => ha
  | none => (ra : Int)

/-- The stride-2 case's `b_shift`: 1 exactly when the param is defined and
the alignment check on the original ramp base is unknown or nonzero. -/
def stride2Shift (ra : Nat) (sc : Scope) (t : HType) (param : Option Int)
    (base : Expr) : Nat :=
  match param with
  | some ha =>
    match get_alignment_check ra sc t ha base with
    | some lanes_off => if lanes_off ≠ 0 then 1 else 0
    | none => 1
  | none => 0

/-- The stride-2 case's `base_b`: `base + lanes`, decremented by one when
`b_shift` is 1. -/
def stride2BaseB (base : Expr) (lanes : Nat) (b_shift : Nat) : Expr :=
  if b_shift = 1 then .Sub (.Add base (.IntImm (lanes : Int))) (.IntImm 1)
  else .Add base (.IntImm (lanes : Int))

/-- The stride-2 case's shuffle indices: lane `2i` for `i < lanes/2` and lane
`2i + b_shift` for `lanes/2 ≤ i < lanes`. -/
def stride2Indices (lanes b_shift : Nat) : ExprList :=
  immsOfFn (fun i => if i < lanes / 2 then (2 * i : Int) else (2 * i + b_shift : Int)) lanes

/-- The slice start offsets `0, N, 2N, …` of the oversized-load case (empty
when the natural lane count is 0, where the C++ loop would not terminate). -/
def sliceOffsets (lanes native : Nat) : List Nat :=
  if native = 0 then [] else (List.range ((lanes + native - 1) / native)).map (fun j => j * native)

/-- The slice loads of the oversized-load case: at offset `i`, a load of
`min(native, lanes - i)` lanes at base `simplify(base + i)` keeping the
original stride. -/
def mkSlices (t : HType) (nm : Nat) (rbase rstride : Expr) (image : Bool)
    (param : Option Int) (lanes native : Nat) : ExprList :=
  ofList ((sliceOffsets lanes native).map (fun i =>
    let w := min native (lanes - i)
    Expr.Load (t.with_lanes w) nm
      (.Ramp (simplify (.Add rbase (.IntImm (i : Int)))) rstride w) image param))

/-- Sequencing of fallible steps (the monadic bind of `Except`), written as
an explicit combinator so proofs can invert it with one lemma. -/
def okBind {A B : Type} (x : Except Err A) (g : A → Except Err B) : Except Err B :=
  match x with
  | .error err => .error err
  | .ok a => g a

/-- `visit_let`'s scope update: push the value's summary when its type is
exactly `Int(32)`; the matching pop is implicit in the scope-passing style. -/
def letPushScope (sc : Scope) (n : Nat) (v : Expr) : Scope :=
  if typeOf v = int32 then (n, modulus_remainder sc v) :: sc else sc

/-- `visit(const For*)`'s alignment update: on a Hexagon loop, 128 with the
`HVX_128` feature, else 64 with the `HVX_64` feature, else `internal_error`;
on any other device API the alignment is unchanged. -/
def forAlignment (tgt : Target) (ra : Nat) (api : DeviceAPI) : Except Err Nat :=
  if api = DeviceAPI.Hexagon then
    if tgt.hvx_128 then .ok 128
    else if tgt.hvx_64 then .ok 64
    else .error .internalError
  else .ok ra

mutual
/-- The expression mutator of `AlignLoads` (an `IRMutator`): `Load` dispatches
to `visitLoad`, `Let` pushes the alignment summary around value and body, and
every other node is rebuilt from its mutated children.  `fuel` bounds the
recursion depth (see the file header); every recursive call, including the
per-element calls of `mutateL` and the dispatch to `visitLoad`, spends one
unit, which keeps the recursion structural. -/
def mutateE : Nat → Target → Nat → Scope → Expr → Except Err Expr
  | 0, _, _, _, _ => .error .outOfFuel
  | fuel + 1, tgt, ra, sc, e =>
    match e with
    | .IntImm v => .ok (.IntImm v)
    | .Var t n => .ok (.Var t n)
    | .Add a b =>
      okBind (mutateE fuel tgt ra sc a) fun a' =>
      okBind (mutateE fuel tgt ra sc b) fun b' => .ok (.Add a' b')
    | .Sub a b =>
      okBind (mutateE fuel tgt ra sc a) fun a' =>
      okBind (mutateE fuel tgt ra sc b) fun b' => .ok (.Sub a' b')
    | .Mul a b =>
      okBind (mutateE fuel tgt ra sc a) fun a' =>
      okBind (mutateE fuel tgt ra sc b) fun b' => .ok (.Mul a' b')
    | .Ramp b s n =>
      okBind (mutateE fuel tgt ra sc b) fun b' =>
      okBind (mutateE fuel tgt ra sc s) fun s' => .ok (.Ramp b' s' n)
    | .Broadcast v n =>
      okBind (mutateE fuel tgt ra sc v) fun v' => .ok (.Broadcast v' n)
    | .Let n v body =>
      okBind (mutateE fuel tgt ra (letPushScope sc n v) v) fun v' =>
      okBind (mutateE fuel tgt ra (letPushScope sc n v) body) fun b' => .ok (.Let n v' b')
    | .Call t op args =>
      okBind (mutateL fuel tgt ra sc args) fun args' => .ok (.Call t op args')
    | .Load t nm index0 image param =>
      visitLoad fuel tgt ra sc t nm index0 image param
termination_by structural fuel _ _ _ _ => fuel

/-- `AlignLoads::visit(const Load*)`.  Mirrors the source case by case:
non-vector and external loads pass through unchanged (returning the original
node `op`, with its unmutated index); a null `ramp` or, in the narrow case, a
null `stride` is dereferenced (`Err.nullDeref`); narrow loads are widened to
the native lane count and re-mutated unless the stride exceeds 2; oversized
loads are sliced and the concatenation re-mutated; dense stride-1 loads with a
known nonzero lane offset become a two-load `concat_and_shuffle` window;
stride-2 loads become two re-mutated dense loads and a deinterleaving
shuffle; everything else passes through unchanged. -/
def visitLoad : Nat → Target → Nat → Scope → HType → Nat → Expr → Bool → Option Int →
    Except Err Expr
  | 0, _, _, _, _, _, _, _, _ => .error .outOfFuel
  | fuel + 1, tgt, ra, sc, t, nm, index0, image, param =>
    okBind (mutateE fuel tgt ra sc index0) fun index =>
    if t.is_vector then
      if image then
        .ok (.Load t nm index0 image param)
      else
        match asRamp index with
        | none => .error .nullDeref
        | some (rbase, rstride, rlanes) =>
          let native := natural_vector_lanes ra t
          if rlanes < native then
            match asIntImm rstride with
            | none => .error .nullDeref
            | some sv =>
              if 2 < sv then .ok (.Load t nm index0 image param)
              else
                okBind (mutateE fuel tgt ra sc
                    (.Load (t.with_lanes native) nm (.Ramp rbase rstride native) image param)) fun vec =>
                  .ok (.Call t .shuffle_vector (.cons vec (immsOfFn (fun i => (i : Int)) rlanes)))
          else if native < rlanes then
            mutateE fuel tgt ra sc (.Call t .concat_vectors (mkSlices t nm rbase rstride image param rlanes native))
          else
            match asIntImm rstride with
            | some sv =>
              if sv = 1 then
                match get_alignment_check ra sc t (base_alignment_of param ra) rbase with
                | some lanes_off =>
                  if lanes_off ≠ 0 then
                    let base_low : Expr := .Sub rbase (.IntImm lanes_off)
                    let load_low : Expr :=
                      .Load t nm (.Ramp (simplify base_low) (.IntImm 1) rlanes) image param
                    let load_high : Expr :=
                      .Load t nm (.Ramp (simplify (.Add base_low (.IntImm (rlanes : Int)))) (.IntImm 1) rlanes) image param
                    .ok (concat_and_shuffle_range load_low load_high lanes_off rlanes)
                  else .ok (.Load t nm index0 image param)
                | none => .ok (.Load t nm index0 image param)
              else if sv = 2 then
                let bs := stride2Shift ra sc t param rbase
                let base_b := stride2BaseB rbase rlanes bs
                okBind (mutateE fuel tgt ra sc (.Load t nm (.Ramp rbase (.IntImm 1) rlanes) image param)) fun vec_a =>
                okBind (mutateE fuel tgt ra sc (.Load t nm (.Ramp base_b (.IntImm 1) rlanes) image param)) fun vec_b =>
                  .ok (concat_and_shuffle vec_a vec_b (stride2Indices rlanes bs))
              else .ok (.Load t nm index0 image param)
            | none => .ok (.Load t nm index0 image param)
    else .ok (.Load t nm index0 image param)

/-- Mutate each expression of a `Call`'s argument list in order, stopping at
the first error. -/
def mutateL : Nat → Target → Nat → Scope → ExprList → Except Err ExprList
  | 0, _, _, _, _ => .error .outOfFuel
  | _fuel + 1, _, _, _, .nil => .ok .nil
  | fuel + 1, tgt, ra, sc, .cons e es =>
    okBind (mutateE fuel tgt ra sc e) fun e' =>
    okBind (mutateL fuel tgt ra sc es) fun es' => .ok (.cons e' es')
end

/-- The statement mutator: `LetStmt` mirrors `visit_let`, `For` switches the
required alignment for min, extent and body per `forAlignment` (the prior
value is restored by construction, the alignment being threaded as an
argument), and other statements are rebuilt from mutated children. -/
def mutateS : Nat → Target → Nat → Scope → Stmt → Except Err Stmt
  | 0, _, _, _, _ => .error .outOfFuel
  | fuel + 1, tgt, ra, sc, s =>
    match s with
    | .LetStmt n v body =>
      okBind (mutateE fuel tgt ra (letPushScope sc n v) v) fun v' =>
      okBind (mutateS fuel tgt ra (letPushScope sc n v) body) fun b' => .ok (.LetStmt n v' b')
    | .For n mn ext api body =>
      okBind (forAlignment tgt ra api) fun ra' =>
      okBind (mutateE fuel tgt ra' sc mn) fun mn' =>
      okBind (mutateE fuel tgt ra' sc ext) fun ext' =>
      okBind (mutateS fuel tgt ra' sc body) fun b' => .ok (.For n mn' ext' api b')
    | .Store nm v ix =>
      okBind (mutateE fuel tgt ra sc v) fun v' =>
      okBind (mutateE fuel tgt ra sc ix) fun ix' => .ok (.Store nm v' ix')
    | .Evaluate e =>
      okBind (mutateE fuel tgt ra sc e) fun e' => .ok (.Evaluate e')
    | .Block s1 s2 =>
      okBind (mutateS fuel tgt ra sc s1) fun s1' =>
      okBind (mutateS fuel tgt ra sc s2) fun s2' => .ok (.Block s1' s2')

/-- The pass entry point `align_loads(s, t)`: run the mutator seeded with
`t.natural_vector_size(Int(8))` as the required alignment. -/
def align_loads (fuel : Nat) (s : Stmt) (t : Target) : Except Err Stmt :=
  mutateS fuel t t.natural_vector_size_i8 [] s

/-- The `ok` payload of a mutator run, with a default. -/
def okOr (x : Except Err Expr) (d : Expr) : Expr :=
  match x with
  | .ok e => e
  | .error _ => d

/-- Whether a mutator run succeeded. -/
def isOkB (x : Except Err Expr) : Bool :=
  match x with
  | .ok _ => true
  | .error _ => false

/-- The lane values `b0, b0+s0, b0+2*s0, …` of an `n`-lane ramp. -/
def rampVals (b0 s0 : Int) : Nat → List Int
  | 0 => []
  | n + 1 => b0 :: rampVals (b0 + s0) s0 n

mutual
/-- Lane-wise denotation of an expression: a buffer state (element value at
each index of each named buffer) and a scalar valuation give each expression
a list of lane values (singleton for scalars). -/
def denote (buf : Nat → Int → Int) (env : Nat → Int) : Expr → List Int
  | .IntImm v => [v]
  | .Var _ n => [env n]
  | .Add a b => List.zipWith (· + ·) (denote buf env a) (denote buf env b)
  | .Sub a b => List.zipWith (· - ·) (denote buf env a) (denote buf env b)
  | .Mul a b => List.zipWith (· * ·) (denote buf env a) (denote buf env b)
  | .Ramp b s n =>
    rampVals ((denote buf env b).headD 0) ((denote buf env s).headD 0) n
  | .Broadcast v n => List.replicate n ((denote buf env v).headD 0)
  | .Load _ nm index _ _ => (denote buf env index).map (buf nm)
  | .Call _ .concat_vectors args => (denoteL buf env args).flatten
  | .Call _ .shuffle_vector args =>
    match args with
    | .nil => []
    | .cons v idxs =>
      let vs := denote buf env v
      (denoteL buf env idxs).map (fun ixv => vs.getD (ixv.headD 0).toNat 0)
  | .Let n v body =>
    let v0 := (denote buf env v).headD 0
    denote buf (fun m => if m = n then v0 else env m) body

/-- Denotations of an argument list. -/
def denoteL (buf : Nat → Int → Int) (env : Nat → Int) : ExprList → List (List Int)
  | .nil => []
  | .cons e es => denote buf env e :: denoteL buf env es
end

mutual
/-- Every element index read by some `Load` inside the expression. -/
def accessed (buf : Nat → Int → Int) (env : Nat → Int) : Expr → List Int
  | .IntImm _ => []
  | .Var _ _ => []
  | .Add a b => accessed buf env a ++ accessed buf env b
  | .Sub a b => accessed buf env a ++ accessed buf env b
  | .Mul a b => accessed buf env a ++ accessed buf env b
  | .Ramp b s _ => accessed buf env b ++ accessed buf env s
  | .Broadcast v _ => accessed buf env v
  | .Load _ _ index _ _ => denote buf env index ++ accessed buf env index
  | .Call _ _ args => accessedL buf env args
  | .Let n v body =>
    let v0 := (denote buf env v).headD 0
    accessed buf env v ++ accessed buf (fun m => if m = n then v0 else env m) body

/-- Accessed indices of an argument list. -/
def accessedL (buf : Nat → Int → Int) (env : Nat → Int) : ExprList → List Int
  | .nil => []
  | .cons e es => accessed buf env e ++ accessedL buf env es
end

/-- A legal shuffle index for a source of `srcLanes` lanes: an integer
literal in `[0, srcLanes)`. -/
def idxOK (srcLanes : Nat) : Expr → Bool
  | .IntImm v => decide (0 ≤ v ∧ v < (srcLanes : Int))
  | _ => false

/-- All indices of a shuffle's argument tail are legal. -/
def allIdxOK (srcLanes : Nat) : ExprList → Bool
  | .nil => true
  | .cons e es => idxOK srcLanes e && allIdxOK srcLanes es

mutual
/-- Every `shuffle_vector` call in the expression has literal lane indices in
range for its source vector. -/
def shufflesOK : Expr → Bool
  | .IntImm _ => true
  | .Var _ _ => true
  | .Add a b => shufflesOK a && shufflesOK b
  | .Sub a b => shufflesOK a && shufflesOK b
  | .Mul a b => shufflesOK a && shufflesOK b
  | .Ramp b s _ => shufflesOK b && shufflesOK s
  | .Broadcast v _ => shufflesOK v
  | .Load _ _ index _ _ => shufflesOK index
  | .Call _ .concat_vectors args => shufflesOKL args
  | .Call _ .shuffle_vector args =>
    match args with
    | .nil => true
    | .cons v idxs => shufflesOK v && allIdxOK (typeOf v).lanes idxs
  | .Let _ v body => shufflesOK v && shufflesOK body

/-- `shufflesOK` over an argument list. -/
def shufflesOKL : ExprList → Bool
  | .nil => true
  | .cons e es => shufflesOK e && shufflesOKL es
end

/-- The rebuilt `Let` of `visit_let`, at the scope produced by
`letPushScope`: value and body mutated under that scope (the pop on exit is
the implicit return to the caller's scope). -/
def letRebuildE (fuel : Nat) (tgt : Target) (ra : Nat) (sc' : Scope) (n : Nat)
    (v body : Expr) : Except Err Expr :=
  okBind (mutateE fuel tgt ra sc' v) fun v' =>
  okBind (mutateE fuel tgt ra sc' body) fun b' => .ok (.Let n v' b')

/-- The rebuilt `LetStmt` of `visit_let`, at the scope produced by
`letPushScope`. -/
def letRebuildS (fuel : Nat) (tgt : Target) (ra : Nat) (sc' : Scope) (n : Nat)
    (v : Expr) (body : Stmt) : Except Err Stmt :=
  okBind (mutateE fuel tgt ra sc' v) fun v' =>
  okBind (mutateS fuel tgt ra sc' body) fun b' => .ok (.LetStmt n v' b')

/-- The rebuilt `For` of `visit(const For*)` at a given required alignment:
min, extent and body are all mutated at that alignment. -/
def forRebuild (fuel : Nat) (tgt : Target) (ra' : Nat) (sc : Scope) (n : Nat)
    (mn ext : Expr) (api : DeviceAPI) (body : Stmt) : Except Err Stmt :=
  okBind (mutateE fuel tgt ra' sc mn) fun mn' =>
  okBind (mutateE fuel tgt ra' sc ext) fun ext' =>
  okBind (mutateS fuel tgt ra' sc body) fun b' => .ok (.For n mn' ext' api b')

/-- The element type `int8` at a given lane count, used by the concrete
examples below. -/
def i8x (n : Nat) : HType := ⟨TypeCode.int, 8, n⟩

/-- A target with no HVX features and a 4-byte natural vector, so that the
natural lane count for `int8` is 4 and examples stay small. -/
def tgt4 : Target := ⟨false, false, 4⟩

/-- The identity buffer state: element `i` of every buffer holds `i`. -/
def bufId : Nat → Int → Int := fun _ i => i

/-- The all-zero valuation. -/
def env0 : Nat → Int := fun _ => 0

/-- An oversized (8 lanes at natural width 4) stride-2 load from an internal
buffer. -/
def exLoadOversized : Expr := .Load (i8x 8) 0 (.Ramp (.IntImm 0) (.IntImm 2) 8) false none

/-- A natural-width stride-2 load at base 2 from a param buffer with declared
host alignment 4. -/
def exLoadStride2Param : Expr := .Load (i8x 4) 0 (.Ramp (.IntImm 2) (.IntImm 2) 4) false (some 4)

mutual
/-- Every `Load` in the expression is lane-consistent: its type's lane count
equals its index type's lane count (an IR well-formedness invariant enforced
by `Load::make`). -/
def lanesOK : Expr → Bool
  | .IntImm _ => true
  | .Var _ _ => true
  | .Add a b => lanesOK a && lanesOK b
  | .Sub a b => lanesOK a && lanesOK b
  | .Mul a b => lanesOK a && lanesOK b
  | .Ramp b s _ => lanesOK b && lanesOK s
  | .Broadcast v _ => lanesOK v
  | .Load t _ index _ _ => ((typeOf index).lanes == t.lanes) && lanesOK index
  | .Call _ _ args => lanesOKL args
  | .Let _ v body => lanesOK v && lanesOK body

/-- `lanesOK` over an argument list. -/
def lanesOKL : ExprList → Bool
  | .nil => true
  | .cons e es => lanesOK e && lanesOKL es
end

/-! ## Helper lemmas -/

theorem asRamp_some {e b s : Expr} {n : Nat} (h : asRamp e = some (b, s, n)) :
    e = .Ramp b s n := by
  cases e <;> simp_all [asRamp]

theorem mem_rampVals {j b0 s0 : Int} :
    ∀ {n : Nat}, j ∈ rampVals b0 s0 n → ∃ i : Nat, i < n ∧ j = b0 + (i : Int) * s0 := by
  intro n
  induction n generalizing b0 with
  | zero => intro h; simp [rampVals] at h
  | succ n ih =>
    intro h
    rcases List.mem_cons.1 h with rfl | h2
    · exact ⟨0, by omega, by ring⟩
    · obtain ⟨i, hi, rfl⟩ := ih h2
      exact ⟨i + 1, by omega, by push_cast; ring⟩

theorem mutateE_load_eq (fuel : Nat) (tgt : Target) (ra : Nat) (sc : Scope)
    (t : HType) (nm : Nat) (ix : Expr) (img : Bool) (p : Option Int) :
    mutateE (fuel + 1) tgt ra sc (.Load t nm ix img p) =
      visitLoad fuel tgt ra sc t nm ix img p := rfl

theorem okBind_ok {A B : Type} {x : Except Err A} {g : A → Except Err B} {r : B}
    (h : okBind x g = .ok r) : ∃ a, x = .ok a ∧ g a = .ok r := by
  cases x with
  | error e => simp [okBind] at h
  | ok a => exact ⟨a, rfl, h⟩

theorem reduce_expr_modulo_bounds {sc : Scope} {e : Expr} {n k : Int}
    (hn : 0 < n) (h : reduce_expr_modulo sc e n = some k) : 0 ≤ k ∧ k < n := by
  simp only [reduce_expr_modulo] at h
  split at h
  · simp only [Option.some.injEq] at h
    subst h
    exact ⟨Int.emod_nonneg _ (by omega), Int.emod_lt_of_pos _ hn⟩
  · simp at h

theorem gac_bounds {ra : Nat} {sc : Scope} {t : HType} {ha : Int} {base : Expr} {k : Int}
    (hpos : 0 < natural_vector_lanes ra t)
    (h : get_alignment_check ra sc t ha base = some k) :
    0 ≤ k ∧ k < (natural_vector_lanes ra t : Int) := by
  unfold get_alignment_check at h
  split at h
  · simp at h
  · exact reduce_expr_modulo_bounds (by exact_mod_cast hpos) h

theorem stride2Shift_le_one (ra : Nat) (sc : Scope) (t : HType) (param : Option Int)
    (base : Expr) : stride2Shift ra sc t param base ≤ 1 := by
  unfold stride2Shift
  rcases param with _ | ha
  · exact Nat.zero_le 1
  · rcases hg : get_alignment_check ra sc t ha base with _ | k
    · simp [hg]
    · simp only [hg]
      split <;> omega

theorem shufflesOK_simplify {e : Expr} (h : shufflesOK e = true) :
    shufflesOK (simplify e) = true := by
  unfold simplify
  split <;> simp_all [shufflesOK]

theorem lanesOK_simplify {e : Expr} (h : lanesOK e = true) :
    lanesOK (simplify e) = true := by
  unfold simplify
  split <;> simp_all [lanesOK]

theorem shufflesOKL_immsOfFn : ∀ (n : Nat) (f : Nat → Int), shufflesOKL (immsOfFn f n) = true := by
  intro n
  induction n with
  | zero => intro f; rfl
  | succ n ih => intro f; simp [immsOfFn, shufflesOKL, shufflesOK, ih]

theorem lanesOKL_immsOfFn : ∀ (n : Nat) (f : Nat → Int), lanesOKL (immsOfFn f n) = true := by
  intro n
  induction n with
  | zero => intro f; rfl
  | succ n ih => intro f; simp [immsOfFn, lanesOKL, lanesOK, ih]

theorem allIdxOK_immsOfFn : ∀ (n : Nat) (f : Nat → Int) (m : Nat),
    (∀ i, i < n → 0 ≤ f i ∧ f i < (m : Int)) → allIdxOK m (immsOfFn f n) = true := by
  intro n
  induction n with
  | zero => intro f m _; rfl
  | succ n ih =>
    intro f m h
    simp only [immsOfFn, allIdxOK, Bool.and_eq_true]
    refine ⟨by simp [idxOK]; exact h 0 (Nat.succ_pos n), ih _ m (fun i hi => h (i + 1) (by omega))⟩

theorem shufflesOKL_ofList : ∀ L : List Expr, shufflesOKL (ofList L) = L.all shufflesOK := by
  intro L
  induction L with
  | nil => rfl
  | cons e es ih => simp [ofList, shufflesOKL, List.all_cons, ih]

theorem lanesOKL_ofList : ∀ L : List Expr, lanesOKL (ofList L) = L.all lanesOK := by
  intro L
  induction L with
  | nil => rfl
  | cons e es ih => simp [ofList, lanesOKL, List.all_cons, ih]

theorem mutateE_intImm {fuel : Nat} {tgt : Target} {ra : Nat} {sc : Scope} {v : Int} {x : Expr}
    (h : mutateE fuel tgt ra sc (.IntImm v) = .ok x) : x = .IntImm v := by
  cases fuel with
  | zero => simp [mutateE] at h
  | succ g => simp only [mutateE, Except.ok.injEq] at h; exact h.symm

theorem mutateL_nil_inv {fuel : Nat} {tgt : Target} {ra : Nat} {sc : Scope} {out : ExprList}
    (h : mutateL fuel tgt ra sc .nil = .ok out) : out = .nil := by
  cases fuel with
  | zero => simp [mutateL] at h
  | succ g => simp only [mutateL, Except.ok.injEq] at h; exact h.symm

theorem mutateL_cons_inv {fuel : Nat} {tgt : Target} {ra : Nat} {sc : Scope}
    {e : Expr} {es : ExprList} {out : ExprList}
    (h : mutateL fuel tgt ra sc (.cons e es) = .ok out) :
    ∃ g e' es', fuel = g + 1 ∧ mutateE g tgt ra sc e = .ok e' ∧
      mutateL g tgt ra sc es = .ok es' ∧ out = .cons e' es' := by
  cases fuel with
  | zero => simp [mutateL] at h
  | succ g =>
    simp only [mutateL] at h
    obtain ⟨e', he, h2⟩ := okBind_ok h
    obtain ⟨es', hes, h3⟩ := okBind_ok h2
    simp only [Except.ok.injEq] at h3
    exact ⟨g, e', es', rfl, he, hes, h3.symm⟩

theorem concat_and_shuffle_wf {a b : Expr} {idxs : ExprList}
    (hsa : shufflesOK a = true) (hsb : shufflesOK b = true)
    (hla : lanesOK a = true) (hlb : lanesOK b = true)
    (hll : lanesOKL idxs = true)
    (hidx : allIdxOK ((typeOf a).lanes * 2) idxs = true) :
    shufflesOK (concat_and_shuffle a b idxs) = true ∧
    lanesOK (concat_and_shuffle a b idxs) = true ∧
    typeOf (concat_and_shuffle a b idxs) = typeOf a := by
  refine ⟨?_, ?_, rfl⟩
  · simp [concat_and_shuffle, shufflesOK, shufflesOKL, typeOf, HType.with_lanes, hsa, hsb, hidx]
  · simp [concat_and_shuffle, lanesOK, lanesOKL, hla, hlb, hll]


theorem visitLoad_wf_step {g : Nat} {tgt : Target} {ra : Nat} {sc : Scope}
    (IHE : ∀ e e', mutateE g tgt ra sc e = .ok e' →
      typeOf e' = typeOf e ∧
      (shufflesOK e = true → lanesOK e = true → shufflesOK e' = true ∧ lanesOK e' = true))
    (t : HType) (nm : Nat) (ix : Expr) (img : Bool) (p : Option Int) (e' : Expr)
    (h : visitLoad (g + 1) tgt ra sc t nm ix img p = .ok e') :
    typeOf e' = t ∧
    (shufflesOK ix = true → ((typeOf ix).lanes == t.lanes) = true → lanesOK ix = true →
      shufflesOK e' = true ∧ lanesOK e' = true) := by
  have hUnc : typeOf (Expr.Load t nm ix img p) = t ∧
      (shufflesOK ix = true → ((typeOf ix).lanes == t.lanes) = true → lanesOK ix = true →
        shufflesOK (Expr.Load t nm ix img p) = true ∧ lanesOK (Expr.Load t nm ix img p) = true) :=
    ⟨rfl, fun hs hl1 hl2 => ⟨by simpa [shufflesOK] using hs, by simp [lanesOK, hl1, hl2]⟩⟩
  simp only [visitLoad] at h
  obtain ⟨index, hIx, h⟩ := okBind_ok h
  obtain ⟨tIx, wfIx⟩ := IHE _ _ hIx
  cases hv : t.is_vector with
  | false =>
    rw [hv] at h
    simp only [Bool.false_eq_true, if_false, Except.ok.injEq] at h
    subst h
    exact hUnc
  | true =>
    rw [hv] at h
    simp only [if_true] at h
    cases img with
    | true =>
      simp only [if_true, Except.ok.injEq] at h
      subst h
      exact hUnc
    | false =>
      simp only [Bool.false_eq_true, if_false] at h
      cases hr : asRamp index with
      | none => rw [hr] at h; simp at h
      | some triple =>
        obtain ⟨rbase, rstride, rlanes⟩ := triple
        rw [hr] at h
        dsimp only at h
        have hRamp : index = .Ramp rbase rstride rlanes := asRamp_some hr
        subst hRamp
        have hlanesIx : (typeOf ix).lanes = rlanes := by
          rw [← tIx]; rfl
        have wfIx2 : shufflesOK ix = true → lanesOK ix = true →
            (shufflesOK rbase = true ∧ shufflesOK rstride = true) ∧
            (lanesOK rbase = true ∧ lanesOK rstride = true) := by
          intro hs hl
          obtain ⟨h1, h2⟩ := wfIx hs hl
          constructor
          · simpa [shufflesOK, Bool.and_eq_true] using h1
          · simpa [lanesOK, Bool.and_eq_true] using h2
        by_cases hlt : rlanes < natural_vector_lanes ra t
        · rw [if_pos hlt] at h
          cases hs2 : asIntImm rstride with
          | none => rw [hs2] at h; simp at h
          | some sv =>
            rw [hs2] at h
            dsimp only at h
            by_cases hsv : 2 < sv
            · rw [if_pos hsv] at h
              simp only [Except.ok.injEq] at h
              subst h
              exact hUnc
            · rw [if_neg hsv] at h
              obtain ⟨vec, hvm, h⟩ := okBind_ok h
              simp only [Except.ok.injEq] at h
              subst h
              obtain ⟨tVec, wfVec⟩ := IHE _ _ hvm
              refine ⟨rfl, fun hs hl1 hl2 => ?_⟩
              obtain ⟨⟨hsb, hss⟩, ⟨hlb, hls⟩⟩ := wfIx2 hs hl2
              have hWsh : shufflesOK (.Load (t.with_lanes (natural_vector_lanes ra t)) nm
                  (.Ramp rbase rstride (natural_vector_lanes ra t)) false p) = true := by
                simp [shufflesOK, hsb, hss]
              have hWla : lanesOK (.Load (t.with_lanes (natural_vector_lanes ra t)) nm
                  (.Ramp rbase rstride (natural_vector_lanes ra t)) false p) = true := by
                simp [lanesOK, typeOf, HType.with_lanes, hlb, hls]
              obtain ⟨vsh, vla⟩ := wfVec hWsh hWla
              constructor
              · simp only [shufflesOK, vsh, Bool.true_and]
                rw [tVec]
                exact allIdxOK_immsOfFn _ _ _ (fun i hi => ⟨by omega, by
                  show (i : Int) < ((t.with_lanes (natural_vector_lanes ra t)).lanes : Int)
                  have : i < natural_vector_lanes ra t := lt_trans hi hlt
                  simp [HType.with_lanes]
                  omega⟩)
              · simp [lanesOK, lanesOKL, vla, lanesOKL_immsOfFn]
        · rw [if_neg hlt] at h
          by_cases hgt : natural_vector_lanes ra t < rlanes
          · rw [if_pos hgt] at h
            obtain ⟨tE, wfE⟩ := IHE _ _ h
            refine ⟨by rw [tE]; rfl, fun hs hl1 hl2 => ?_⟩
            obtain ⟨⟨hsb, hss⟩, ⟨hlb, hls⟩⟩ := wfIx2 hs hl2
            apply wfE
            · simp only [shufflesOK, mkSlices, shufflesOKL_ofList, List.all_eq_true]
              intro slice hmem
              simp only [List.mem_map] at hmem
              obtain ⟨i, _, rfl⟩ := hmem
              simp only [shufflesOK, Bool.and_eq_true]
              exact ⟨shufflesOK_simplify (by simp [shufflesOK, hsb]), hss⟩
            · simp only [lanesOK, mkSlices, lanesOKL_ofList, List.all_eq_true]
              intro slice hmem
              simp only [List.mem_map] at hmem
              obtain ⟨i, _, rfl⟩ := hmem
              simp only [lanesOK, Bool.and_eq_true, typeOf, HType.with_lanes]
              exact ⟨by simp, lanesOK_simplify (by simp [lanesOK, hlb]), hls⟩
          · rw [if_neg hgt] at h
            have heq : rlanes = natural_vector_lanes ra t := by omega
            cases hs2 : asIntImm rstride with
            | none =>
              rw [hs2] at h
              dsimp only at h
              simp only [Except.ok.injEq] at h
              subst h
              exact hUnc
            | some sv =>
              rw [hs2] at h
              dsimp only at h
              by_cases hsv1 : sv = 1
              · subst hsv1
                rw [if_pos rfl] at h
                cases hg2 : get_alignment_check ra sc t (base_alignment_of p ra) rbase with
                | none =>
                  rw [hg2] at h
                  dsimp only at h
                  simp only [Except.ok.injEq] at h
                  subst h
                  exact hUnc
                | some lanes_off =>
                  rw [hg2] at h
                  dsimp only at h
                  by_cases hk : lanes_off ≠ 0
                  · rw [if_pos hk] at h
                    simp only [Except.ok.injEq] at h
                    subst h
                    refine ⟨rfl, fun hs hl1 hl2 => ?_⟩
                    obtain ⟨⟨hsb, hss⟩, ⟨hlb, hls⟩⟩ := wfIx2 hs hl2
                    have htl : rlanes = t.lanes := by
                      have := (beq_iff_eq).mp hl1
                      omega
                    have hsm1 : shufflesOK (simplify (.Sub rbase (.IntImm lanes_off))) = true :=
                      shufflesOK_simplify (by simp [shufflesOK, hsb])
                    have hlm1 : lanesOK (simplify (.Sub rbase (.IntImm lanes_off))) = true :=
                      lanesOK_simplify (by simp [lanesOK, hlb])
                    have hsLow : shufflesOK (Expr.Load t nm
                        (.Ramp (simplify (.Sub rbase (.IntImm lanes_off))) (.IntImm 1) rlanes) false p) = true := by
                      simp [shufflesOK, hsm1]
                    have hsHigh : shufflesOK (Expr.Load t nm
                        (.Ramp (simplify (.Add (.Sub rbase (.IntImm lanes_off)) (.IntImm (rlanes : Int)))) (.IntImm 1) rlanes) false p) = true := by
                      simp [shufflesOK, hsb]
                    have hlLow : lanesOK (Expr.Load t nm
                        (.Ramp (simplify (.Sub rbase (.IntImm lanes_off))) (.IntImm 1) rlanes) false p) = true := by
                      simp [lanesOK, typeOf, HType.with_lanes, hlm1, htl]
                    have hlHigh : lanesOK (Expr.Load t nm
                        (.Ramp (simplify (.Add (.Sub rbase (.IntImm lanes_off)) (.IntImm (rlanes : Int)))) (.IntImm 1) rlanes) false p) = true := by
                      simp [lanesOK, typeOf, HType.with_lanes, hlb, htl]
                    have hidx : allIdxOK ((typeOf (Expr.Load t nm
                        (.Ramp (simplify (.Sub rbase (.IntImm lanes_off))) (.IntImm 1) rlanes) false p)).lanes * 2)
                        (immsOfFn (fun i => lanes_off + (i : Int)) rlanes) = true := by
                      apply allIdxOK_immsOfFn
                      intro i hi
                      have hpos : 0 < natural_vector_lanes ra t := by omega
                      obtain ⟨hk0, hk1⟩ := gac_bounds hpos hg2
                      constructor
                      · omega
                      · show lanes_off + (i : Int) < (t.lanes * 2 : Nat)
                        push_cast
                        omega
                    obtain ⟨c1, c2, _⟩ := concat_and_shuffle_wf hsLow hsHigh hlLow hlHigh
                      (lanesOKL_immsOfFn _ _) hidx
                    exact ⟨c1, c2⟩
                  · rw [if_neg hk] at h
                    simp only [Except.ok.injEq] at h
                    subst h
                    exact hUnc
              · rw [if_neg hsv1] at h
                by_cases hsv2 : sv = 2
                · subst hsv2
                  rw [if_pos rfl] at h
                  obtain ⟨va, hva, h⟩ := okBind_ok h
                  obtain ⟨vb, hvb, h⟩ := okBind_ok h
                  simp only [Except.ok.injEq] at h
                  subst h
                  obtain ⟨tva, wfa⟩ := IHE _ _ hva
                  obtain ⟨tvb, wfb⟩ := IHE _ _ hvb
                  refine ⟨by simp only [concat_and_shuffle, typeOf]; rw [tva]; rfl, fun hs hl1 hl2 => ?_⟩
                  obtain ⟨⟨hsb, hss⟩, ⟨hlb, hls⟩⟩ := wfIx2 hs hl2
                  have htl : rlanes = t.lanes := by
                    have := (beq_iff_eq).mp hl1
                    omega
                  have hsB : shufflesOK (stride2BaseB rbase rlanes (stride2Shift ra sc t p rbase)) = true := by
                    unfold stride2BaseB
                    split <;> simp [shufflesOK, hsb]
                  have hlB : lanesOK (stride2BaseB rbase rlanes (stride2Shift ra sc t p rbase)) = true := by
                    unfold stride2BaseB
                    split <;> simp [lanesOK, hlb]
                  obtain ⟨sa, la⟩ := wfa (by simp [shufflesOK, hsb])
                    (by simp [lanesOK, typeOf, HType.with_lanes, hlb, htl])
                  have hlB2 : lanesOK (stride2BaseB rbase t.lanes (stride2Shift ra sc t p rbase)) = true := by
                    rw [← htl]; exact hlB
                  obtain ⟨sb2, lb2⟩ := wfb (by simp [shufflesOK, hsB])
                    (by simp [lanesOK, typeOf, HType.with_lanes, hlB2, hlB, htl])
                  have hidx : allIdxOK ((typeOf va).lanes * 2)
                      (stride2Indices rlanes (stride2Shift ra sc t p rbase)) = true := by
                    unfold stride2Indices
                    apply allIdxOK_immsOfFn
                    intro i hi
                    have hbs := stride2Shift_le_one ra sc t p rbase
                    have hva2 : (typeOf va).lanes = t.lanes := by simp [tva, typeOf]
                    constructor
                    · split <;> positivity
                    · rw [hva2]
                      split <;> · push_cast; omega
                  obtain ⟨c1, c2, _⟩ := concat_and_shuffle_wf sa sb2 la lb2
                    (lanesOKL_immsOfFn _ _) hidx
                  exact ⟨c1, c2⟩
                · rw [if_neg hsv2] at h
                  simp only [Except.ok.injEq] at h
                  subst h
                  exact hUnc


theorem idxOK_intImm {m : Nat} {e : Expr} (h : idxOK m e = true) : ∃ v, e = .IntImm v := by
  cases e <;> simp_all [idxOK]

theorem allIdxOK_shufflesOKL {m : Nat} : ∀ es : ExprList, allIdxOK m es = true →
    shufflesOKL es = true
  | .nil, _ => rfl
  | .cons e es, h => by
    simp only [allIdxOK, Bool.and_eq_true] at h
    obtain ⟨v, rfl⟩ := idxOK_intImm h.1
    simp [shufflesOKL, shufflesOK, allIdxOK_shufflesOKL es h.2]

theorem allIdxOK_lanesOKL {m : Nat} : ∀ es : ExprList, allIdxOK m es = true →
    lanesOKL es = true
  | .nil, _ => rfl
  | .cons e es, h => by
    simp only [allIdxOK, Bool.and_eq_true] at h
    obtain ⟨v, rfl⟩ := idxOK_intImm h.1
    simp [lanesOKL, lanesOK, allIdxOK_lanesOKL es h.2]

theorem mutate_wf : ∀ fuel : Nat,
    (∀ tgt ra sc e e', mutateE fuel tgt ra sc e = .ok e' →
      typeOf e' = typeOf e ∧
      (shufflesOK e = true → lanesOK e = true → shufflesOK e' = true ∧ lanesOK e' = true)) ∧
    (∀ tgt ra sc es es', mutateL fuel tgt ra sc es = .ok es' →
      (shufflesOKL es = true → lanesOKL es = true → shufflesOKL es' = true ∧ lanesOKL es' = true) ∧
      (∀ m, allIdxOK m es = true → es' = es)) := by
  intro fuel
  induction fuel using Nat.strong_induction_on with
  | _ fuel IH =>
    constructor
    · intro tgt ra sc e e' h
      match fuel, h with
      | 0, h => simp [mutateE] at h
      | g + 1, h =>
        have IHE := (IH g (by omega)).1
        cases e with
        | IntImm v =>
          simp only [mutateE, Except.ok.injEq] at h
          subst h
          exact ⟨rfl, fun a b => ⟨a, b⟩⟩
        | Var t n =>
          simp only [mutateE, Except.ok.injEq] at h
          subst h
          exact ⟨rfl, fun a b => ⟨a, b⟩⟩
        | Add a b =>
          simp only [mutateE] at h
          obtain ⟨a', ha, h⟩ := okBind_ok h
          obtain ⟨b', hb, h⟩ := okBind_ok h
          simp only [Except.ok.injEq] at h
          subst h
          obtain ⟨ta, wa⟩ := IHE tgt ra sc a a' ha
          obtain ⟨tb, wb⟩ := IHE tgt ra sc b b' hb
          refine ⟨by simp [typeOf, ta], fun hs hl => ?_⟩
          simp only [shufflesOK, lanesOK, Bool.and_eq_true] at hs hl ⊢
          exact ⟨⟨(wa hs.1 hl.1).1, (wb hs.2 hl.2).1⟩, ⟨(wa hs.1 hl.1).2, (wb hs.2 hl.2).2⟩⟩
        | Sub a b =>
          simp only [mutateE] at h
          obtain ⟨a', ha, h⟩ := okBind_ok h
          obtain ⟨b', hb, h⟩ := okBind_ok h
          simp only [Except.ok.injEq] at h
          subst h
          obtain ⟨ta, wa⟩ := IHE tgt ra sc a a' ha
          obtain ⟨tb, wb⟩ := IHE tgt ra sc b b' hb
          refine ⟨by simp [typeOf, ta], fun hs hl => ?_⟩
          simp only [shufflesOK, lanesOK, Bool.and_eq_true] at hs hl ⊢
          exact ⟨⟨(wa hs.1 hl.1).1, (wb hs.2 hl.2).1⟩, ⟨(wa hs.1 hl.1).2, (wb hs.2 hl.2).2⟩⟩
        | Mul a b =>
          simp only [mutateE] at h
          obtain ⟨a', ha, h⟩ := okBind_ok h
          obtain ⟨b', hb, h⟩ := okBind_ok h
          simp only [Except.ok.injEq] at h
          subst h
          obtain ⟨ta, wa⟩ := IHE tgt ra sc a a' ha
          obtain ⟨tb, wb⟩ := IHE tgt ra sc b b' hb
          refine ⟨by simp [typeOf, ta], fun hs hl => ?_⟩
          simp only [shufflesOK, lanesOK, Bool.and_eq_true] at hs hl ⊢
          exact ⟨⟨(wa hs.1 hl.1).1, (wb hs.2 hl.2).1⟩, ⟨(wa hs.1 hl.1).2, (wb hs.2 hl.2).2⟩⟩
        | Ramp b s n =>
          simp only [mutateE] at h
          obtain ⟨b', hb, h⟩ := okBind_ok h
          obtain ⟨s', hs2, h⟩ := okBind_ok h
          simp only [Except.ok.injEq] at h
          subst h
          obtain ⟨tb, wb⟩ := IHE tgt ra sc b b' hb
          obtain ⟨ts, ws⟩ := IHE tgt ra sc s s' hs2
          refine ⟨by simp [typeOf, tb], fun hs hl => ?_⟩
          simp only [shufflesOK, lanesOK, Bool.and_eq_true] at hs hl ⊢
          exact ⟨⟨(wb hs.1 hl.1).1, (ws hs.2 hl.2).1⟩, ⟨(wb hs.1 hl.1).2, (ws hs.2 hl.2).2⟩⟩
        | Broadcast v n =>
          simp only [mutateE] at h
          obtain ⟨v', hv, h⟩ := okBind_ok h
          simp only [Except.ok.injEq] at h
          subst h
          obtain ⟨tv, wv⟩ := IHE tgt ra sc v v' hv
          refine ⟨by simp [typeOf, tv], fun hs hl => ?_⟩
          simp only [shufflesOK, lanesOK] at hs hl ⊢
          exact ⟨(wv hs hl).1, (wv hs hl).2⟩
        | Let n v bd =>
          simp only [mutateE] at h
          obtain ⟨v', hv, h⟩ := okBind_ok h
          obtain ⟨b', hb, h⟩ := okBind_ok h
          simp only [Except.ok.injEq] at h
          subst h
          obtain ⟨tv, wv⟩ := IHE tgt ra (letPushScope sc n v) v v' hv
          obtain ⟨tb, wb⟩ := IHE tgt ra (letPushScope sc n v) bd b' hb
          refine ⟨by simp [typeOf, tb], fun hs hl => ?_⟩
          simp only [shufflesOK, lanesOK, Bool.and_eq_true] at hs hl ⊢
          exact ⟨⟨(wv hs.1 hl.1).1, (wb hs.2 hl.2).1⟩, ⟨(wv hs.1 hl.1).2, (wb hs.2 hl.2).2⟩⟩
        | Call t op args =>
          simp only [mutateE] at h
          obtain ⟨args', hargs, h⟩ := okBind_ok h
          simp only [Except.ok.injEq] at h
          subst h
          refine ⟨rfl, fun hs hl => ?_⟩
          simp only [lanesOK] at hl
          cases op with
          | concat_vectors =>
            simp only [shufflesOK] at hs
            obtain ⟨w1, _⟩ := (IH g (by omega)).2 tgt ra sc args args' hargs
            obtain ⟨c1, c2⟩ := w1 hs hl
            exact ⟨by simpa [shufflesOK] using c1, by simpa [lanesOK] using c2⟩
          | shuffle_vector =>
            cases args with
            | nil =>
              have := mutateL_nil_inv hargs
              subst this
              exact ⟨rfl, rfl⟩
            | cons v idxs =>
              obtain ⟨g2, v', idxs', hgeq, hv, hidxs, heq⟩ := mutateL_cons_inv hargs
              subst heq
              simp only [shufflesOK, Bool.and_eq_true] at hs
              simp only [lanesOKL, Bool.and_eq_true] at hl
              obtain ⟨tv, wv⟩ := (IH g2 (by omega)).1 tgt ra sc v v' hv
              have hidxs_eq : idxs' = idxs :=
                ((IH g2 (by omega)).2 tgt ra sc idxs idxs' hidxs).2 _ hs.2
              subst hidxs_eq
              obtain ⟨sv', lv'⟩ := wv hs.1 hl.1
              constructor
              · simp only [shufflesOK, Bool.and_eq_true]
                exact ⟨sv', by rw [tv]; exact hs.2⟩
              · simp only [lanesOK, lanesOKL, Bool.and_eq_true]
                exact ⟨lv', hl.2⟩
        | Load t nm ix img p =>
          simp only [mutateE] at h
          match g, h with
          | 0, h => simp [visitLoad] at h
          | g2 + 1, h =>
            have step := visitLoad_wf_step ((IH g2 (by omega)).1 tgt ra sc) t nm ix img p e' h
            refine ⟨step.1, fun hs hl => ?_⟩
            simp only [shufflesOK] at hs
            simp only [lanesOK, Bool.and_eq_true] at hl
            exact step.2 hs hl.1 hl.2
    · intro tgt ra sc es es' h
      match fuel, h with
      | 0, h => simp [mutateL] at h
      | g + 1, h =>
        cases es with
        | nil =>
          have := mutateL_nil_inv h
          subst this
          exact ⟨fun _ _ => ⟨rfl, rfl⟩, fun _ _ => rfl⟩
        | cons e es0 =>
          simp only [mutateL] at h
          obtain ⟨e', he, h⟩ := okBind_ok h
          obtain ⟨es0', hes, h⟩ := okBind_ok h
          simp only [Except.ok.injEq] at h
          subst h
          obtain ⟨te, we⟩ := (IH g (by omega)).1 tgt ra sc e e' he
          obtain ⟨wL, iL⟩ := (IH g (by omega)).2 tgt ra sc es0 es0' hes
          constructor
          · intro hs hl
            simp only [shufflesOKL, lanesOKL, Bool.and_eq_true] at hs hl ⊢
            exact ⟨⟨(we hs.1 hl.1).1, (wL hs.2 hl.2).1⟩, ⟨(we hs.1 hl.1).2, (wL hs.2 hl.2).2⟩⟩
          · intro m hidx
            simp only [allIdxOK, Bool.and_eq_true] at hidx
            obtain ⟨v, rfl⟩ := idxOK_intImm hidx.1
            rw [mutateE_intImm he, iL m hidx.2]


/-! ## Claim theorems -/

/-- C7: on a `For` tagged with the Hexagon device API, the body (with min and
extent) is traversed at required alignment 128 when the target has `HVX_128`,
at 64 when it has only `HVX_64`, and the pass fails with the internal
invariant error when it has neither; on any other device API the required
alignment is unchanged.  The prior alignment is restored on exit by
construction, the alignment being an argument of the traversal. -/
theorem C7_for_device_alignment (fuel : Nat) (tgt : Target) (ra : Nat) (sc : Scope)
    (n : Nat) (mn ext : Expr) (api : DeviceAPI) (body : Stmt) :
    (api = DeviceAPI.Hexagon → tgt.hvx_128 = true →
      mutateS (fuel + 1) tgt ra sc (.For n mn ext api body) =
        forRebuild fuel tgt 128 sc n mn ext api body) ∧
    (api = DeviceAPI.Hexagon → tgt.hvx_128 = false → tgt.hvx_64 = true →
      mutateS (fuel + 1) tgt ra sc (.For n mn ext api body) =
        forRebuild fuel tgt 64 sc n mn ext api body) ∧
    (api = DeviceAPI.Hexagon → tgt.hvx_128 = false → tgt.hvx_64 = false →
      mutateS (fuel + 1) tgt ra sc (.For n mn ext api body) = .error .internalError) ∧
    (api ≠ DeviceAPI.Hexagon →
      mutateS (fuel + 1) tgt ra sc (.For n mn ext api body) =
        forRebuild fuel tgt ra sc n mn ext api body) := by
  refine ⟨fun hapi h128 => ?_, fun hapi h128 h64 => ?_, fun hapi h128 h64 => ?_, fun hapi => ?_⟩
  · subst hapi; simp [mutateS, forAlignment, h128, forRebuild, okBind]
  · subst hapi; simp [mutateS, forAlignment, h128, h64, forRebuild, okBind]
  · subst hapi; simp [mutateS, forAlignment, h128, h64, okBind]
  · simp [mutateS, forAlignment, hapi, forRebuild, okBind]

/-- C7 witness: at a concrete Hexagon-tagged loop with an `HVX_64`-only
target the body is traversed at alignment 64. -/
theorem C7_witness :
    mutateS 3 ⟨false, true, 4⟩ 4 [] (.For 0 (.IntImm 0) (.IntImm 1) DeviceAPI.Hexagon (.Evaluate (.IntImm 0))) =
      forRebuild 2 ⟨false, true, 4⟩ 64 [] 0 (.IntImm 0) (.IntImm 1) DeviceAPI.Hexagon (.Evaluate (.IntImm 0)) :=
  (C7_for_device_alignment 2 ⟨false, true, 4⟩ 4 [] 0 (.IntImm 0) (.IntImm 1)
    DeviceAPI.Hexagon (.Evaluate (.IntImm 0))).2.1 rfl rfl rfl

/-- C10: when the target has both the `HVX_128` and the `HVX_64` features,
a Hexagon-tagged `For` is traversed at required alignment 128 — the 128-byte
mode takes precedence. -/
theorem C10_hvx128_precedence (fuel : Nat) (tgt : Target) (ra : Nat) (sc : Scope)
    (n : Nat) (mn ext : Expr) (body : Stmt)
    (h128 : tgt.hvx_128 = true) (h64 : tgt.hvx_64 = true) :
    mutateS (fuel + 1) tgt ra sc (.For n mn ext DeviceAPI.Hexagon body) =
      forRebuild fuel tgt 128 sc n mn ext DeviceAPI.Hexagon body := by
  simp [mutateS, forAlignment, h128, forRebuild, okBind]

/-- C10 witness: at a concrete both-features target the body alignment is
128. -/
theorem C10_witness :
    mutateS 3 ⟨true, true, 4⟩ 4 [] (.For 0 (.IntImm 0) (.IntImm 1) DeviceAPI.Hexagon (.Evaluate (.IntImm 0))) =
      forRebuild 2 ⟨true, true, 4⟩ 128 [] 0 (.IntImm 0) (.IntImm 1) DeviceAPI.Hexagon (.Evaluate (.IntImm 0)) :=
  C10_hvx128_precedence 2 ⟨true, true, 4⟩ 4 [] 0 (.IntImm 0) (.IntImm 1)
    (.Evaluate (.IntImm 0)) rfl rfl

/-- C8 counterexample: a bound value of type `Int(16)` has integer type, yet
`visit_let` does not push its summary — the alignment context is left
unchanged rather than extended, refuting the claim that every let whose
value has integer type is tracked. -/
theorem C8_integer_not_tracked_counterexample :
    (HType.mk TypeCode.int 16 1).is_int = true ∧
    typeOf (Expr.Var ⟨TypeCode.int, 16, 1⟩ 3) = ⟨TypeCode.int, 16, 1⟩ ∧
    letPushScope [] 7 (.Var ⟨TypeCode.int, 16, 1⟩ 3) = [] ∧
    letPushScope [] 7 (.Var ⟨TypeCode.int, 16, 1⟩ 3) ≠
      [(7, modulus_remainder [] (.Var ⟨TypeCode.int, 16, 1⟩ 3))] := by
  refine ⟨rfl, rfl, rfl, ?_⟩
  decide

/-- C8 amended: a `Let` or `LetStmt` mutates its value and body under the
scope produced by `letPushScope`, which pushes the value's
modulus-remainder summary exactly when the value's type is `Int(32)` and
leaves the scope unchanged otherwise (the pop being the implicit return to
the caller's scope). -/
theorem C8_amended_let_tracking (fuel : Nat) (tgt : Target) (ra : Nat) (sc : Scope)
    (n : Nat) (v : Expr) :
    (∀ body : Expr, mutateE (fuel + 1) tgt ra sc (.Let n v body) =
      letRebuildE fuel tgt ra (letPushScope sc n v) n v body) ∧
    (∀ body : Stmt, mutateS (fuel + 1) tgt ra sc (.LetStmt n v body) =
      letRebuildS fuel tgt ra (letPushScope sc n v) n v body) ∧
    (typeOf v = int32 → letPushScope sc n v = (n, modulus_remainder sc v) :: sc) ∧
    (typeOf v ≠ int32 → letPushScope sc n v = sc) := by
  refine ⟨fun body => rfl, fun body => rfl, fun h => ?_, fun h => ?_⟩
  · simp [letPushScope, h]
  · simp [letPushScope, h]

/-- C8 witness: an `Int(32)`-typed value is pushed, an `Int(16)`-typed one
is not. -/
theorem C8_witness :
    letPushScope [] 7 (.IntImm 3) = [(7, modulus_remainder [] (.IntImm 3))] ∧
    letPushScope [] 7 (.Var ⟨TypeCode.int, 16, 1⟩ 3) = [] :=
  ⟨(C8_amended_let_tracking 0 tgt4 4 [] 7 (.IntImm 3)).2.2.1 rfl,
   (C8_amended_let_tracking 0 tgt4 4 [] 7 (.Var ⟨TypeCode.int, 16, 1⟩ 3)).2.2.2 (by decide)⟩

/-- C5: a vector load from an internal buffer whose index is not a `Ramp`
(here a `Broadcast`) makes the pass dereference the null `ramp` pointer
instead of returning the load unchanged, and a narrow load whose ramp stride
is not an integer literal dereferences the null `stride` pointer; only at
exactly natural lanes is a symbolic-stride load returned unchanged. -/
theorem C5_nonramp_crash_divergence :
    mutateE 5 tgt4 4 [] (.Load (i8x 4) 0 (.Broadcast (.IntImm 0) 4) false none) =
      .error .nullDeref ∧
    mutateE 5 tgt4 4 [] (.Load (i8x 2) 0 (.Ramp (.Var int32 1) (.Var int32 2) 2) false none) =
      .error .nullDeref ∧
    mutateE 5 tgt4 4 [] (.Load (i8x 4) 0 (.Ramp (.Var int32 1) (.Var int32 2) 4) false none) =
      .ok (.Load (i8x 4) 0 (.Ramp (.Var int32 1) (.Var int32 2) 4) false none) :=
  ⟨rfl, rfl, rfl⟩

/-- C1: at the oversized stride-2 load `Load(int8x8, Ramp(0, 2, 8))` (natural
width 4) the pass succeeds but the rewritten expression denotes
`[0,2,4,6,4,6,8,10]` while the original denotes `[0,2,4,6,8,10,12,14]` on the
identity buffer: the slice bases `simplify(base + i)` with the stride
retained change the value, refuting semantic preservation. -/
theorem C1_oversized_slicing_divergence :
    isOkB (mutateE 19 tgt4 4 [] exLoadOversized) = true ∧
    align_loads 20 (.Evaluate exLoadOversized) tgt4 =
      .ok (.Evaluate (okOr (mutateE 19 tgt4 4 [] exLoadOversized) exLoadOversized)) ∧
    denote bufId env0 (okOr (mutateE 19 tgt4 4 [] exLoadOversized) exLoadOversized) =
      [0, 2, 4, 6, 4, 6, 8, 10] ∧
    denote bufId env0 exLoadOversized = [0, 2, 4, 6, 8, 10, 12, 14] :=
  ⟨rfl, rfl, rfl, rfl⟩

/-- C4 counterexample: at the stride-2 load `Load(int8x4, Ramp(2, 2, 4))`
with a param of host alignment 4, the oracle reports `lanes_off = 2 ≠ 0`, the
original load accesses at most element 8, yet the final rewritten expression
(after the recursive rewrite of the two dense loads) accesses element 11. -/
theorem C4_counterexample :
    get_alignment_check 4 [] (i8x 4) 4 (.IntImm 2) = some 2 ∧
    isOkB (mutateE 10 tgt4 4 [] exLoadStride2Param) = true ∧
    accessed bufId env0 (okOr (mutateE 10 tgt4 4 [] exLoadStride2Param) (.IntImm 0)) =
      [0, 1, 2, 3, 4, 5, 6, 7, 4, 5, 6, 7, 8, 9, 10, 11] ∧
    accessed bufId env0 exLoadStride2Param = [2, 4, 6, 8] :=
  ⟨rfl, rfl, rfl, rfl⟩

/-- C2: a dense natural-width stride-1 internal load with known nonzero lane
offset `k` is rewritten to the `[k, k+N)` window of two shifted loads at
`simplify(base - k)` and `simplify(base - k + N)`; with offset 0 or unknown
alignment it is returned unchanged. -/
theorem C2_dense_stride1_rewrite (fuel : Nat) (tgt : Target) (ra : Nat) (sc : Scope)
    (t : HType) (nm : Nat) (base : Expr) (param : Option Int) (N : Nat)
    (hvec : t.is_vector = true)
    (hN : natural_vector_lanes ra t = N)
    (hix : mutateE fuel tgt ra sc (.Ramp base (.IntImm 1) N) = .ok (.Ramp base (.IntImm 1) N)) :
    (∀ k, get_alignment_check ra sc t (base_alignment_of param ra) base = some k → k ≠ 0 →
      mutateE (fuel + 2) tgt ra sc (.Load t nm (.Ramp base (.IntImm 1) N) false param) =
        .ok (concat_and_shuffle_range
          (.Load t nm (.Ramp (simplify (.Sub base (.IntImm k))) (.IntImm 1) N) false param)
          (.Load t nm (.Ramp (simplify (.Add (.Sub base (.IntImm k)) (.IntImm (N : Int)))) (.IntImm 1) N) false param)
          k N)) ∧
    (get_alignment_check ra sc t (base_alignment_of param ra) base = some 0 →
      mutateE (fuel + 2) tgt ra sc (.Load t nm (.Ramp base (.IntImm 1) N) false param) =
        .ok (.Load t nm (.Ramp base (.IntImm 1) N) false param)) ∧
    (get_alignment_check ra sc t (base_alignment_of param ra) base = none →
      mutateE (fuel + 2) tgt ra sc (.Load t nm (.Ramp base (.IntImm 1) N) false param) =
        .ok (.Load t nm (.Ramp base (.IntImm 1) N) false param)) := by
  have hload : mutateE (fuel + 2) tgt ra sc (.Load t nm (.Ramp base (.IntImm 1) N) false param) =
      visitLoad (fuel + 1) tgt ra sc t nm (.Ramp base (.IntImm 1) N) false param := rfl
  refine ⟨fun k hk hk0 => ?_, fun hk => ?_, fun hk => ?_⟩
  · rw [hload]
    simp only [visitLoad, okBind, hix, hvec, asRamp, asIntImm, hN, lt_irrefl, if_true, if_false,
      reduceCtorEq, hk]
    simp [hk0]
  · rw [hload]
    simp only [visitLoad, okBind, hix, hvec, asRamp, asIntImm, hN, lt_irrefl, if_true, if_false,
      reduceCtorEq, hk]
    simp
  · rw [hload]
    simp only [visitLoad, okBind, hix, hvec, asRamp, asIntImm, hN, lt_irrefl, if_true, if_false,
      reduceCtorEq, hk]

/-- C2 witness: at `Load(int8x4, Ramp(3, 1, 4))` from an internal buffer the
oracle reports lane offset 3 and the load becomes the `[3, 7)` window of the
shifted loads at bases `simplify(3-3)` and `simplify(3-3+4)`. -/
theorem C2_witness :
    mutateE 5 tgt4 4 [] (.Load (i8x 4) 0 (.Ramp (.IntImm 3) (.IntImm 1) 4) false none) =
      .ok (concat_and_shuffle_range
        (.Load (i8x 4) 0 (.Ramp (simplify (.Sub (.IntImm 3) (.IntImm 3))) (.IntImm 1) 4) false none)
        (.Load (i8x 4) 0 (.Ramp (simplify (.Add (.Sub (.IntImm 3) (.IntImm 3)) (.IntImm 4))) (.IntImm 1) 4) false none)
        3 4) :=
  (C2_dense_stride1_rewrite 3 tgt4 4 [] (i8x 4) 0 (.IntImm 3) none 4 rfl rfl rfl).1 3 rfl (by decide)

/-- C6: a narrow internal vector load (`V < N` natural lanes) with literal
stride `s` is returned unchanged when `s > 2`, and otherwise becomes the
`[0, V)` prefix shuffle of the recursively rewritten widened `N`-lane load
at the same base and stride. -/
theorem C6_narrow_load_rewrite (fuel : Nat) (tgt : Target) (ra : Nat) (sc : Scope)
    (t : HType) (nm : Nat) (base : Expr) (param : Option Int) (V N : Nat) (s : Int)
    (hvec : t.is_vector = true)
    (hN : natural_vector_lanes ra t = N)
    (hVN : V < N)
    (hix : mutateE fuel tgt ra sc (.Ramp base (.IntImm s) V) = .ok (.Ramp base (.IntImm s) V)) :
    (2 < s →
      mutateE (fuel + 2) tgt ra sc (.Load t nm (.Ramp base (.IntImm s) V) false param) =
        .ok (.Load t nm (.Ramp base (.IntImm s) V) false param)) ∧
    (s ≤ 2 → ∀ vec,
      mutateE fuel tgt ra sc (.Load (t.with_lanes N) nm (.Ramp base (.IntImm s) N) false param) = .ok vec →
      mutateE (fuel + 2) tgt ra sc (.Load t nm (.Ramp base (.IntImm s) V) false param) =
        .ok (.Call t .shuffle_vector (.cons vec (immsOfFn (fun i => (i : Int)) V)))) := by
  have hload : mutateE (fuel + 2) tgt ra sc (.Load t nm (.Ramp base (.IntImm s) V) false param) =
      visitLoad (fuel + 1) tgt ra sc t nm (.Ramp base (.IntImm s) V) false param := rfl
  refine ⟨fun hs => ?_, fun hs vec hw => ?_⟩
  · rw [hload]
    simp only [visitLoad, okBind, hix, hvec, asRamp, asIntImm, hN, hVN, if_true, hs]
    simp
  · rw [hload]
    simp only [visitLoad, okBind, hix, hvec, asRamp, asIntImm, hN, hVN, if_true, not_lt.mpr hs,
      if_neg (not_lt.mpr hs), hw]
    simp

/-- C6 witness: `Load(int8x2, Ramp(0, 1, 2))` (natural width 4) becomes the
2-lane prefix shuffle of the rewritten widened 4-lane load. -/
theorem C6_witness :
    mutateE 6 tgt4 4 [] (.Load (i8x 2) 0 (.Ramp (.IntImm 0) (.IntImm 1) 2) false none) =
      .ok (.Call (i8x 2) .shuffle_vector (.cons
        (.Load ((i8x 2).with_lanes 4) 0 (.Ramp (.IntImm 0) (.IntImm 1) 4) false none)
        (immsOfFn (fun i => (i : Int)) 2))) :=
  (C6_narrow_load_rewrite 4 tgt4 4 [] (i8x 2) 0 (.IntImm 0) none 2 4 1 rfl rfl
    (by decide) rfl).2 (by decide)
    (.Load ((i8x 2).with_lanes 4) 0 (.Ramp (.IntImm 0) (.IntImm 1) 4) false none) rfl

/-- C3: a natural-width stride-2 internal load is rewritten to
`concat_and_shuffle` of the recursive rewrites of the two dense loads at
`base` and `stride2BaseB base N b_shift`, with deinterleaving indices
`2i` (first half) and `2i + b_shift` (second half); `b_shift` is 1 exactly
when the param is defined and the oracle on the original base with the
param's host alignment is unknown or nonzero, and 0 otherwise. -/
theorem C3_stride2_rewrite (fuel : Nat) (tgt : Target) (ra : Nat) (sc : Scope)
    (t : HType) (nm : Nat) (base : Expr) (param : Option Int) (N : Nat)
    (hvec : t.is_vector = true)
    (hN : natural_vector_lanes ra t = N)
    (hix : mutateE fuel tgt ra sc (.Ramp base (.IntImm 2) N) = .ok (.Ramp base (.IntImm 2) N)) :
    (∀ va vb,
      mutateE fuel tgt ra sc (.Load t nm (.Ramp base (.IntImm 1) N) false param) = .ok va →
      mutateE fuel tgt ra sc
        (.Load t nm (.Ramp (stride2BaseB base N (stride2Shift ra sc t param base)) (.IntImm 1) N) false param) = .ok vb →
      mutateE (fuel + 2) tgt ra sc (.Load t nm (.Ramp base (.IntImm 2) N) false param) =
        .ok (concat_and_shuffle va vb (stride2Indices N (stride2Shift ra sc t param base)))) ∧
    (∀ ha, param = some ha →
      (get_alignment_check ra sc t ha base = none → stride2Shift ra sc t param base = 1) ∧
      (∀ k, get_alignment_check ra sc t ha base = some k → k ≠ 0 →
        stride2Shift ra sc t param base = 1) ∧
      (get_alignment_check ra sc t ha base = some 0 → stride2Shift ra sc t param base = 0)) ∧
    (param = none → stride2Shift ra sc t param base = 0) := by
  have hload : mutateE (fuel + 2) tgt ra sc (.Load t nm (.Ramp base (.IntImm 2) N) false param) =
      visitLoad (fuel + 1) tgt ra sc t nm (.Ramp base (.IntImm 2) N) false param := rfl
  refine ⟨fun va vb hva hvb => ?_, fun ha hp => ⟨fun h => ?_, fun k hk hk0 => ?_, fun h => ?_⟩,
    fun hp => ?_⟩
  · rw [hload]
    simp only [visitLoad, okBind, hix, hvec, asRamp, asIntImm, hN, lt_irrefl, if_false, hva, hvb]
    simp
  · simp [stride2Shift, hp, h]
  · simp [stride2Shift, hp, hk, hk0]
  · simp [stride2Shift, hp, h]
  · simp [stride2Shift, hp]

/-- C3 witness: `Load(int8x4, Ramp(x, 2, 4))` internal without a param gets
shift 0 and becomes the deinterleaving shuffle of the rewritten dense loads
at `x` and `x + 4`. -/
theorem C3_witness :
    mutateE 7 tgt4 4 [] (.Load (i8x 4) 0 (.Ramp (.Var int32 1) (.IntImm 2) 4) false none) =
      .ok (concat_and_shuffle
        (.Load (i8x 4) 0 (.Ramp (.Var int32 1) (.IntImm 1) 4) false none)
        (.Load (i8x 4) 0 (.Ramp (.Add (.Var int32 1) (.IntImm 4)) (.IntImm 1) 4) false none)
        (stride2Indices 4 0)) :=
  (C3_stride2_rewrite 5 tgt4 4 [] (i8x 4) 0 (.Var int32 1) none 4 rfl rfl rfl).1
    (.Load (i8x 4) 0 (.Ramp (.Var int32 1) (.IntImm 1) 4) false none)
    (.Load (i8x 4) 0 (.Ramp (.Add (.Var int32 1) (.IntImm 4)) (.IntImm 1) 4) false none)
    rfl rfl

/-- C4 amended: in the stride-2 case with a defined param and an unknown or
nonzero oracle answer, `b_shift` is 1 and the pair of synthesized dense
loads, as synthesized (before their recursive rewrite), accesses no element
index beyond `base + 2*(N-1)`, the maximum index of the original stride-2
load. -/
theorem C4_amended_no_overread (fuel : Nat) (tgt : Target) (ra : Nat) (sc : Scope)
    (t : HType) (nm : Nat) (base : Expr) (ha : Int) (N : Nat)
    (buf : Nat → Int → Int) (env : Nat → Int) (b0 : Int)
    (hvec : t.is_vector = true)
    (hN : natural_vector_lanes ra t = N)
    (hix : mutateE fuel tgt ra sc (.Ramp base (.IntImm 2) N) = .ok (.Ramp base (.IntImm 2) N))
    (hor : get_alignment_check ra sc t ha base = none ∨
           ∃ k, get_alignment_check ra sc t ha base = some k ∧ k ≠ 0)
    (hb : denote buf env base = [b0]) :
    stride2Shift ra sc t (some ha) base = 1 ∧
    (∀ va vb,
      mutateE fuel tgt ra sc (.Load t nm (.Ramp base (.IntImm 1) N) false (some ha)) = .ok va →
      mutateE fuel tgt ra sc (.Load t nm (.Ramp (stride2BaseB base N 1) (.IntImm 1) N) false (some ha)) = .ok vb →
      mutateE (fuel + 2) tgt ra sc (.Load t nm (.Ramp base (.IntImm 2) N) false (some ha)) =
        .ok (concat_and_shuffle va vb (stride2Indices N 1))) ∧
    (∀ j ∈ denote buf env (.Ramp base (.IntImm 1) N) ++
           denote buf env (.Ramp (stride2BaseB base N 1) (.IntImm 1) N),
      j ≤ b0 + 2 * ((N : Int) - 1)) ∧
    (∀ j ∈ denote buf env (.Ramp base (.IntImm 2) N), j ≤ b0 + 2 * ((N : Int) - 1)) := by
  have hshift : stride2Shift ra sc t (some ha) base = 1 := by
    rcases hor with h | ⟨k, hk, hk0⟩
    · simp [stride2Shift, h]
    · simp [stride2Shift, hk, hk0]
  have hload : mutateE (fuel + 2) tgt ra sc (.Load t nm (.Ramp base (.IntImm 2) N) false (some ha)) =
      visitLoad (fuel + 1) tgt ra sc t nm (.Ramp base (.IntImm 2) N) false (some ha) := rfl
  refine ⟨hshift, fun va vb hva hvb => ?_, fun j hj => ?_, fun j hj => ?_⟩
  · rw [hload]
    simp only [visitLoad, okBind, hix, hvec, asRamp, asIntImm, hN, lt_irrefl, if_false, hshift, hva, hvb]
    simp
  · have h1 : denote buf env (.Ramp base (.IntImm 1) N) = rampVals b0 1 N := by
      simp [denote, hb]
    have h2 : denote buf env (.Ramp (stride2BaseB base N 1) (.IntImm 1) N) =
        rampVals (b0 + (N : Int) - 1) 1 N := by
      simp [denote, stride2BaseB, hb, List.zipWith_cons_cons, List.zipWith_nil_left]
    rw [h1, h2] at hj
    rcases List.mem_append.1 hj with hj1 | hj1 <;>
      obtain ⟨i, hi, rfl⟩ := mem_rampVals hj1 <;> push_cast <;> omega
  · have h1 : denote buf env (.Ramp base (.IntImm 2) N) = rampVals b0 2 N := by
      simp [denote, hb]
    rw [h1] at hj
    obtain ⟨i, hi, rfl⟩ := mem_rampVals hj
    push_cast
    omega

/-- C4 amended witness: at base 2, host alignment 4, the shift is 1. -/
theorem C4_amended_witness :
    stride2Shift 4 [] (i8x 4) (some 4) (.IntImm 2) = 1 :=
  (C4_amended_no_overread 3 tgt4 4 [] (i8x 4) 0 (.IntImm 2) 4 4 bufId env0 2 rfl rfl rfl
    (Or.inr ⟨2, rfl, by decide⟩) rfl).1

/-- C9: every `shuffle_vector` the pass synthesizes has literal lane indices
in range `[0, lanes(source))`: mutating a lane-consistent expression
(`lanesOK`, the `Load::make` invariant) whose existing shuffles are legal
(`shufflesOK`) yields an expression all of whose shuffles are legal, covering
the narrow-load, dense-misaligned and stride-2 synthesis sites. -/
theorem C9_shuffle_indices_in_range (fuel : Nat) (tgt : Target) (ra : Nat) (sc : Scope)
    (e e' : Expr) (h : mutateE fuel tgt ra sc e = .ok e')
    (hs : shufflesOK e = true) (hl : lanesOK e = true) :
    shufflesOK e' = true :=
  (((mutate_wf fuel).1 tgt ra sc e e' h).2 hs hl).1

/-- C9 witness: the misaligned dense load at base 3 rewrites to the window
shuffle with indices 3..6 into an 8-lane concatenation, and every shuffle of
the result is in range. -/
theorem C9_witness :
    shufflesOK (concat_and_shuffle_range
      (.Load (i8x 4) 0 (.Ramp (simplify (.Sub (.IntImm 3) (.IntImm 3))) (.IntImm 1) 4) false none)
      (.Load (i8x 4) 0 (.Ramp (simplify (.Add (.Sub (.IntImm 3) (.IntImm 3)) (.IntImm 4))) (.IntImm 1) 4) false none)
      3 4) = true :=
  C9_shuffle_indices_in_range 5 tgt4 4 []
    (.Load (i8x 4) 0 (.Ramp (.IntImm 3) (.IntImm 1) 4) false none) _ rfl rfl rfl

end AlignLoadsProofs
